import Mathlib

/-!
Verification development for the Probe Collection & Caching Orchestrator of the
Fingerprint repository (src/fingerprint.js).

The JavaScript source is shallowly embedded: JS values are modelled by the
inductive `Value` (JS numbers are modelled as integers, the only kind the
orchestrator manipulates; floating point is out of scope), JS `Map` and plain
objects are modelled as insertion-ordered association lists with the exact
`Map.set` / property-assignment semantics (updating an existing key keeps its
original position), and asynchronous execution is modelled by explicit outcome
data on each strategy plus an explicit settlement-event order for
`Promise.allSettled`.  Prototype-chain properties of JS objects (e.g.
`toString`) are not modelled; for arrays, index keys and `length` are.
-/

namespace Fingerprint

/-- Model of a JS value as manipulated by the orchestrator.  Numbers are
modelled as integers (`Int`); the orchestrator only ever handles integral
numbers (timeouts, sizes, timestamps). -/
inductive Value where
  | null
  | bool (b : Bool)
  | num (n : Int)
  | str (s : String)
  | arr (elems : List Value)
  | obj (fields : List (String × Value))

/-- JS truthiness on modelled values (`NaN`, `undefined` and `-0` do not occur
in the model). -/
def truthy : Value → Bool
  | .null => false
  | .bool b => b
  | .num n => n != 0
  | .str s => s != ""
  | .arr _ => true
  | .obj _ => true

/-- Association-list lookup, the model of `Map.get` / property read (first
match; keys are unique for lists built by `jsAssocSet`). -/
def alookup {α : Type} : List (String × α) → String → Option α
  | [], _ => none
  | (k', v) :: tl, k => if k' == k then some v else alookup tl k

/-- Model of `Map.prototype.set` and of JS property assignment `o[k] = v`:
an existing key keeps its original position in iteration order and only its
value is replaced; a new key is appended at the end. -/
def jsAssocSet {α : Type} : List (String × α) → String → α → List (String × α)
  | [], k, v => [(k, v)]
  | (k', v') :: tl, k, v =>
    if k' == k then (k, v) :: tl else (k', v') :: jsAssocSet tl k v

/-- Model of `Map.prototype.delete`: removes the (unique) entry with the given
key, preserving the order of the others. -/
def aerase {α : Type} : List (String × α) → String → List (String × α)
  | [], _ => []
  | (k', v) :: tl, k => if k' == k then tl else (k', v) :: aerase tl k

/-- Iteration-order key list of an association list (model of `Map.keys()` /
`Object.keys`). -/
def keysOf {α : Type} (m : List (String × α)) : List String := m.map Prod.fst

/-- Decimal digit characters and lowercase letters, as produced by JS
`Number.prototype.toString(radix)`. -/
def digitChar36 (n : Nat) : Char :=
  if n < 10 then Char.ofNat (48 + n) else Char.ofNat (87 + n)

/-- Fuel-based repeated division; the fuel argument only bounds the recursion
depth and is always supplied large enough (`n + 1` ≥ number of digits). -/
def natToBaseAux (base : Nat) : Nat → Nat → List Char → List Char
  | 0, _, acc => acc
  | fuel + 1, n, acc =>
    if n = 0 then acc
    else natToBaseAux base fuel (n / base) (digitChar36 (n % base) :: acc)

/-- Model of JS `n.toString(base)` for a nonnegative integral number. -/
def natToBase (base n : Nat) : String :=
  if n = 0 then "0" else String.mk (natToBaseAux base (n + 1) n [])

/-- UTF-16 code units of a string, the units read by JS `charCodeAt`. -/
def utf16Units (s : String) : List Nat :=
  s.data.flatMap fun c =>
    let n := c.toNat
    if n < 0x10000 then [n]
    else [0xD800 + (n - 0x10000) / 0x400, 0xDC00 + (n - 0x10000) % 0x400]

/-- Wrap an integer to a 32-bit signed integer, the effect of JS `| 0`. -/
def toInt32 (n : Int) : Int :=
  let m := n % 4294967296
  if m ≥ 2147483648 then m - 4294967296 else m

/-- Hash accumulation loop of `simpleHash`:
`hash = ((hash << 5) - hash) + chr; hash |= 0` (JS `<<` itself operates on
32-bit integers, hence the inner wrap). -/
def simpleHashLoop : List Nat → Int → Int
  | [], h => h
  | c :: cs, h => simpleHashLoop cs (toInt32 (toInt32 (h * 32) - h + (c : Int)))

/-- Model of `simpleHash` (src/fingerprint.js:2326): the 32-bit rolling hash of
the string's UTF-16 units, rendered via `Math.abs(hash).toString(36)`. -/
def simpleHash (s : String) : String :=
  if s.length = 0 then "0"
  else natToBase 36 (simpleHashLoop (utf16Units s) 0).natAbs

/-- Split a string at `'.'` characters, the model of JS `path.split('.')`
(`""` splits to `[""]`, adjacent dots produce empty segments). -/
def splitDotAux : List Char → List Char → List String
  | [], acc => [String.mk acc.reverse]
  | c :: cs, acc =>
    if c == '.' then String.mk acc.reverse :: splitDotAux cs []
    else splitDotAux cs (c :: acc)

/-- Model of JS `path.split('.')`. -/
def splitDot (s : String) : List String := splitDotAux s.data []

/-- Parse a canonical decimal numeral (no leading zeros, except `"0"`),
the strings that are valid JS array index property keys. -/
def parseCanonicalNat (s : String) : Option Nat :=
  if s.data ≠ [] ∧ s.data.all (fun c => '0' ≤ c ∧ c ≤ '9') then
    let n := s.data.foldl (fun acc c => acc * 10 + (c.toNat - 48)) 0
    if natToBase 10 n == s then some n else none
  else none

/-- Model of the traversal step `value && typeof value === 'object' && key in
value` followed by `value = value[key]` in `Config.get`
(src/fingerprint.js:255-260).  Succeeds only on objects and arrays (`typeof`
is `'object'` for both, and `null` is falsy); for objects the own keys are
visible, for arrays the index keys and `length` (other prototype-chain
properties are not modelled). -/
def jsGetKeyObjArr : Value → String → Option Value
  | .obj fs, k => alookup fs k
  | .arr xs, k =>
    if k == "length" then some (.num xs.length)
    else match parseCanonicalNat k with
      | some i => xs.get? i
      | none => none
  | _, _ => none

/-- Loop body of `Config.get` (src/fingerprint.js:251-264): walk the key
segments, returning the default the moment a step fails. -/
def configGetLoop : Value → List String → Value → Value
  | v, [], _ => v
  | v, k :: ks, d =>
    match jsGetKeyObjArr v k with
    | some v' => configGetLoop v' ks d
    | none => d

/-- Model of `Config.get(path, defaultValue)` (src/fingerprint.js:251-264) on
a configuration tree `current`. -/
def configGet (current : Value) (path : String) (d : Value) : Value :=
  configGetLoop current (splitDot path) d

/-- Successful-prefix traversal: `some v'` when every segment step succeeds.
Used only to state theorems about `configGet`; not part of the source. -/
def configTraverse : Value → List String → Option Value
  | v, [] => some v
  | v, k :: ks =>
    match jsGetKeyObjArr v k with
    | some v' => configTraverse v' ks
    | none => none

/-- Two lowercase hexadecimal digits of a byte, for JSON control escapes. -/
def hex2 (n : Nat) : String := String.mk [digitChar36 (n / 16), digitChar36 (n % 16)]

/-- JSON escape of one character, as produced by `JSON.stringify`. -/
def jsonEscapeChar (c : Char) : String :=
  if c = '"' then "\\\""
  else if c = '\\' then "\\\\"
  else if c = '\n' then "\\n"
  else if c = '\r' then "\\r"
  else if c = '\t' then "\\t"
  else if c = Char.ofNat 8 then "\\b"
  else if c = Char.ofNat 12 then "\\f"
  else if c.toNat < 32 then "\\u00" ++ hex2 c.toNat
  else String.mk [c]

/-- JSON quotation of a string. -/
def jsonQuote (s : String) : String :=
  "\"" ++ String.join (s.data.map jsonEscapeChar) ++ "\""

/-- Comma-separated concatenation. -/
def commaJoin : List String → String
  | [] => ""
  | [s] => s
  | s :: rest => s ++ "," ++ commaJoin rest

/-- Model of `JSON.stringify` on modelled values (object keys serialize in
insertion order, exactly as in JS). -/
def stringify : Value → String
  | .null => "null"
  | .bool true => "true"
  | .bool false => "false"
  | .num n => toString n
  | .str s => jsonQuote s
  | .arr xs => "[" ++ commaJoin (xs.attach.map fun x => stringify x.1) ++ "]"
  | .obj fs =>
    "\x7b" ++
      commaJoin (fs.attach.map fun p => jsonQuote p.1.1 ++ ":" ++ stringify p.1.2) ++
      "\x7d"
termination_by v => sizeOf v
decreasing_by
  · have h := List.sizeOf_lt_of_mem x.2
    simp only [Value.arr.sizeOf_spec]
    omega
  · rcases p with ⟨⟨k, v⟩, hmem⟩
    have h := List.sizeOf_lt_of_mem hmem
    simp only [Prod.mk.sizeOf_spec] at h
    simp only [Value.obj.sizeOf_spec]
    omega

/-- Model of the JS strict comparison `v === 's'` of a value against a string
literal. -/
def isStr (v : Value) (s : String) : Bool :=
  match v with
  | .str t => t == s
  | _ => false

/-- Default configuration tree of `Config.defaults`
(src/fingerprint.js:145-212); `Config.init()` at module load makes
`Config.current` a deep copy of it. -/
def defaultConfig : Value :=
  .obj
    [ ("timeouts", .obj
        [ ("audio", .num 5000), ("mediaDevices", .num 3000), ("storage", .num 2000),
          ("permissions", .num 1000), ("battery", .num 2000), ("webRTC", .num 2000),
          ("fontDetection", .num 5000) ]),
      ("features", .obj
        [ ("canvas", .bool true), ("webgl", .bool true), ("audio", .bool true),
          ("fonts", .bool true), ("mediaDevices", .bool true), ("webRTC", .bool true),
          ("battery", .bool true), ("permissions", .bool true), ("storage", .bool true),
          ("plugins", .bool true), ("screen", .bool true), ("timeZone", .bool true),
          ("userAgent", .bool true), ("language", .bool true), ("platform", .bool true),
          ("connection", .bool true), ("touch", .bool true), ("speechVoices", .bool true),
          ("mediaQueries", .bool true), ("features", .bool true), ("performance", .bool true),
          ("math", .bool true), ("dateTime", .bool true), ("privacy", .bool true),
          ("history", .bool true), ("codecs", .bool true), ("orientation", .bool true),
          ("deviceMotion", .bool true) ]),
      ("cache", .obj
        [ ("enabled", .bool true), ("ttl", .num 3600000), ("maxSize", .num 100),
          ("storage", .str "memory") ]),
      ("fontList", .arr
        [ .str "Arial", .str "Verdana", .str "Times New Roman", .str "Courier New",
          .str "Roboto", .str "Open Sans", .str "Noto Sans", .str "Helvetica",
          .str "Tahoma", .str "Georgia", .str "Comic Sans MS", .str "Impact",
          .str "Lucida Console", .str "Palatino", .str "Garamond", .str "Bookman",
          .str "Trebuchet MS", .str "Arial Black", .str "Comic Sans", .str "Courier",
          .str "Lucida Sans Unicode", .str "MS Sans Serif", .str "MS Serif",
          .str "Symbol", .str "Times", .str "Wingdings", .str "Zapf Dingbats" ]),
      ("performance", .obj
        [ ("useRequestIdleCallback", .bool true), ("fontDetectionBatchSize", .num 5),
          ("fontDetectionIdleTimeout", .num 5000) ]) ]

/-!
## Cache model

The two-tier `Cache` object (src/fingerprint.js:290-534).  The memory tier is
a JS `Map` (insertion-ordered association list); the durable tier (IndexedDB)
is modelled as a keyed store plus a readiness flag.  IndexedDB I/O failures
are not modelled (the happy path is used); timestamps are integers.  `data` is
kept abstract in `α`: the cache never inspects it.
-/

/-- Model of a cache entry `{key, data, timestamp}` (src/fingerprint.js:445). -/
structure CacheEntry (α : Type) where
  key : String
  data : α
  timestamp : Int
deriving DecidableEq

/-- State of the two cache tiers. -/
structure CacheState (α : Type) where
  memory : List (String × CacheEntry α)
  durableReady : Bool
  durable : List (String × CacheEntry α)
deriving DecidableEq

/-- Model of the JS comparison `d < ttlValue` for a config-supplied bound:
false when the bound is not a number (a non-numeric bound makes the JS
comparison NaN-false; numeric-string coercion is outside the modelled
domain). -/
def jsNumLt (d : Int) (v : Value) : Bool :=
  match v with
  | .num t => d < t
  | _ => false

/-- Model of the JS comparison `size > maxSizeValue`, false on a non-numeric
bound (same convention as `jsNumLt`). -/
def jsSizeGt (n : Nat) (v : Value) : Bool :=
  match v with
  | .num m => (n : Int) > m
  | _ => false

/-- Model of `Cache.delete(key)` (src/fingerprint.js:483-499): remove from
memory always, and from the durable tier when it is ready. -/
def cacheDelete {α : Type} (key : String) (st : CacheState α) : CacheState α :=
  { memory := aerase st.memory key,
    durableReady := st.durableReady,
    durable := if st.durableReady then aerase st.durable key else st.durable }

/-- Durable-tier half of `Cache.get` (src/fingerprint.js:400-432): consulted
when the storage mode is `indexedDB` and the tier is ready; a fresh hit is
promoted into the memory tier (storing the durable entry itself, with its own
timestamp); an expired entry is removed from both tiers via `Cache.delete`. -/
def cacheGetDurable {α : Type} (storage ttlV : Value) (now : Int) (key : String)
    (st : CacheState α) : Option α × CacheState α :=
  if isStr storage "indexedDB" && st.durableReady then
    match alookup st.durable key with
    | some e =>
      if jsNumLt (now - e.timestamp) ttlV then
        (some e.data, { st with memory := jsAssocSet st.memory key e })
      else
        (none, cacheDelete key st)
    | none => (none, st)
  else (none, st)

/-- Model of `Cache.get(key)` (src/fingerprint.js:378-435).  Returns the
payload (or `none` for a miss) together with the updated cache state.  `now`
models the single `Date.now()` read of the call. -/
def cacheGet {α : Type} (cfg : Value) (now : Int) (key : String)
    (st : CacheState α) : Option α × CacheState α :=
  if ¬ truthy (configGet cfg "cache.enabled" .null) then (none, st)
  else
    let storage := configGet cfg "cache.storage" (.str "memory")
    let ttlV := configGet cfg "cache.ttl" (.num 3600000)
    match alookup st.memory key with
    | some e =>
      if jsNumLt (now - e.timestamp) ttlV then (some e.data, st)
      else
        cacheGetDurable storage ttlV now key
          { st with memory := aerase st.memory key }
    | none => cacheGetDurable storage ttlV now key st

/-- Model of `Cache.set(key, data)` (src/fingerprint.js:438-480): write the
entry `{key, data, now}` into the memory tier; if the memory tier's size then
exceeds `maxSize`, delete the first key in iteration order
(`memoryCache.keys().next().value`); write through to the durable tier when
the storage mode requests it and the tier is ready. -/
def cacheSet {α : Type} (cfg : Value) (now : Int) (key : String) (data : α)
    (st : CacheState α) : CacheState α :=
  if ¬ truthy (configGet cfg "cache.enabled" .null) then st
  else
    let storage := configGet cfg "cache.storage" (.str "memory")
    let maxSizeV := configGet cfg "cache.maxSize" (.num 100)
    let entry : CacheEntry α := ⟨key, data, now⟩
    let m1 := jsAssocSet st.memory key entry
    let m2 :=
      if jsSizeGt m1.length maxSizeV then
        match keysOf m1 with
        | [] => m1
        | firstKey :: _ => aerase m1 firstKey
      else m1
    { memory := m2,
      durableReady := st.durableReady,
      durable :=
        if isStr storage "indexedDB" && st.durableReady then
          jsAssocSet st.durable key entry
        else st.durable }

/-!
## Strategy model

`FingerprintStrategy` (src/fingerprint.js:551-658) and its registry.  A
strategy's `execute()` is an external collaborator: it is modelled by outcome
data — the settled outcome of its promise (`execOutcome`), how long it takes
to settle (`execDurationMs`), and whether calling it returns a thenable
(`execThenable`, true for every `async` method, and all strategy classes in
the source declare `async execute()`).  `stable` models
`getStableComponents(result)` and `cleanupFails` models `cleanup()` throwing
(which, from the `finally` block, rejects the `collect()` promise).
-/

/-- Settled outcome of awaiting a strategy's `execute()` promise. -/
inductive ExecOutcome where
  | ok (v : Value)
  | err

/-- Model of a registered strategy instance. -/
structure Strategy where
  name : String
  enabled : Bool
  priority : Int
  timeout : Option Int
  requiresAsync : Bool
  execOutcome : ExecOutcome
  execDurationMs : Int
  execThenable : Bool
  stable : Value → Value
  cleanupFails : Bool

/-- Check whether `pat` is a prefix of `l`. -/
def listStartsWith : List Char → List Char → Bool
  | _, [] => true
  | [], _ :: _ => false
  | a :: as, b :: bs => a == b && listStartsWith as bs

/-- Model of the regex test `/Strategy$/`: does the string end with
`"Strategy"`. -/
def strEndsWith (s suffix : String) : Bool :=
  listStartsWith s.data.reverse suffix.data.reverse

/-- Lowercasing of a string (ASCII, which covers all strategy names). -/
def toLowerStr (s : String) : String := String.mk (s.data.map Char.toLower)

/-- Model of `charAt(0).toLowerCase() + slice(1)`. -/
def lowerFirst (s : String) : String :=
  match s.data with
  | [] => ""
  | c :: cs => String.mk (c.toLower :: cs)

/-- Replace the first occurrence of `pat` in the character list by `repl`
(unchanged when `pat` does not occur); `pat` is nonempty at every use. -/
def replaceFirstChars (pat repl : List Char) : List Char → List Char
  | [] => []
  | c :: cs =>
    if listStartsWith (c :: cs) pat then repl ++ (c :: cs).drop pat.length
    else c :: replaceFirstChars pat repl cs

/-- Model of JS `s.replace(pat, repl)` with a string pattern: first occurrence
only. -/
def stringReplaceFirst (s pat repl : String) : String :=
  String.mk (replaceFirstChars pat.data repl.data s.data)

/-- The `specialCases` table of `getFeatureKey`
(src/fingerprint.js:576-589). -/
def specialCases : List (String × String) :=
  [ ("FontDetection", "fonts"), ("MediaDevices", "mediaDevices"),
    ("SpeechVoices", "speechVoices"), ("MediaQueries", "mediaQueries"),
    ("FeatureDetection", "features"), ("ScreenOrientation", "orientation"),
    ("DeviceMotion", "deviceMotion"), ("MediaCodecs", "codecs"),
    ("WebRTC", "webRTC"), ("WebGL", "webgl"), ("UserAgent", "userAgent"),
    ("TimeZone", "timeZone") ]

/-- Model of `getFeatureKey()` (src/fingerprint.js:571-598): strip a trailing
`"Strategy"`, consult `specialCases`, else lowercase the first character. -/
def getFeatureKey (name : String) : String :=
  let n :=
    if strEndsWith name "Strategy" then String.mk (name.data.take (name.data.length - 8))
    else name
  match alookup specialCases n with
  | some k => k
  | none => lowerFirst n

/-- Model of `isEnabled()` (src/fingerprint.js:564-566):
`this.enabled && Config.get('features.' + featureKey, true)`. -/
def strategyIsEnabled (cfg : Value) (s : Strategy) : Bool :=
  s.enabled && truthy (configGet cfg ("features." ++ getFeatureKey s.name) (.bool true))

/-- Millisecond delay actually handed to `setTimeout` for a config-fetched
value: non-numeric values are outside the modelled domain and behave as 0. -/
def jsToMs (v : Value) : Int :=
  match v with
  | .num t => t
  | _ => 0

/-- Model of `withTimeout(promise, timeoutType, fallbackValue, context)`
(src/fingerprint.js:2358-2386) as called with no `customTimeout`: the
deadline is `Config.get('timeouts.' + timeoutType, 5000)`; the race yields
the promise's own outcome when it settles strictly before the deadline, and
resolves with the fallback otherwise (the losing branch is abandoned, not
interrupted). -/
def withTimeout (cfg : Value) (outcome : ExecOutcome) (durationMs : Int)
    (timeoutType : String) (fallback : Value) : ExecOutcome :=
  let timeoutMs := jsToMs (configGet cfg ("timeouts." ++ timeoutType) (.num 5000))
  if durationMs < timeoutMs then outcome else .ok fallback

/-- Model of `FingerprintStrategy.collect()` (src/fingerprint.js:604-633):
`null` when disabled; otherwise `execute()` wrapped by `withTimeout` when
`this.timeout` is truthy — note the source passes the numeric `this.timeout`
as withTimeout's `timeoutType` argument, so the deadline lookup path is
`"timeouts." + String(timeout)`; a raised failure is caught and converted to
`null`. -/
def strategyCollect (cfg : Value) (s : Strategy) : Value :=
  if ¬ strategyIsEnabled cfg s then .null
  else
    let raced :=
      match s.timeout with
      | some t =>
        if t != 0 then withTimeout cfg s.execOutcome s.execDurationMs (toString t) .null
        else s.execOutcome
      | none => s.execOutcome
    match raced with
    | .ok v => v
    | .err => .null

/-- Settled state of the promise returned by one `strategy.collect()` call:
the body never rejects (every failure is caught), but a throwing `cleanup()`
in the `finally` block rejects it; a disabled strategy returns before the
`try`, so its `cleanup()` never runs. -/
inductive SettledResult where
  | fulfilled (v : Value)
  | rejected

/-- Promise settlement of `strategy.collect()` for `Promise.allSettled`. -/
def strategySettle (cfg : Value) (s : Strategy) : SettledResult :=
  if ¬ strategyIsEnabled cfg s then .fulfilled .null
  else if s.cleanupFails then .rejected
  else .fulfilled (strategyCollect cfg s)

/-- The `strategies.forEach` aggregation loop of `executeStrategies`
(src/fingerprint.js:856-865): build the `strategyResults` object keyed by
strategy name, a rejected settlement contributing `null`. -/
def buildResults (strategies : List Strategy) (results : List SettledResult) :
    List (String × Value) :=
  (strategies.zip results).foldl
    (fun acc sr =>
      jsAssocSet acc sr.1.name
        (match sr.2 with
         | .fulfilled v => v
         | .rejected => .null))
    []

/-- Model of `FingerprintCollector.executeStrategies(strategies)`
(src/fingerprint.js:851-868): `Promise.allSettled` delivers each strategy's
settlement at its position, and the results object is keyed by name. -/
def executeStrategies (cfg : Value) (strategies : List Strategy) :
    List (String × Value) :=
  buildResults strategies (strategies.map (strategySettle cfg))

/-- Positional reassembly performed by `Promise.allSettled`: from the
settlement events, delivered in an arbitrary completion order as
(index, settlement) pairs, recover the results array slot by slot.  The
`rejected` default is never reached when the events cover every index. -/
def assembleSettled (n : Nat) (events : List (Nat × SettledResult)) :
    List SettledResult :=
  (List.range n).map fun i =>
    match events.find? (fun p => p.1 == i) with
    | some p => p.2
    | none => .rejected

/-- The settlement events of a strategy list in source (index) order; an
actual run delivers some permutation of these. -/
def settleGraph (cfg : Value) (strategies : List Strategy) :
    List (Nat × SettledResult) :=
  (strategies.map (strategySettle cfg)).enum

/-- `executeStrategies` as observed under an explicit completion order of the
settlement events. -/
def executeStrategiesEv (strategies : List Strategy)
    (events : List (Nat × SettledResult)) : List (String × Value) :=
  buildResults strategies (assembleSettled strategies.length events)

/-- The static `keyMapping` table of `aggregateResults`
(src/fingerprint.js:875-904). -/
def keyMapping : List (String × String) :=
  [ ("TimeZoneStrategy", "timeZone"), ("UserAgentStrategy", "userAgent"),
    ("CanvasStrategy", "canvasFingerprint"), ("FontDetectionStrategy", "fonts"),
    ("ScreenStrategy", "screen"), ("PluginsStrategy", "plugins"),
    ("LanguageStrategy", "language"), ("PlatformStrategy", "platform"),
    ("WebGLStrategy", "webgl"), ("AudioStrategy", "audioFingerprint"),
    ("MediaDevicesStrategy", "mediaDevices"), ("ConnectionStrategy", "connection"),
    ("TouchStrategy", "touch"), ("StorageStrategy", "storage"),
    ("PermissionsStrategy", "permissions"), ("SpeechVoicesStrategy", "speechVoices"),
    ("BatteryStrategy", "battery"), ("MediaQueriesStrategy", "mediaQueries"),
    ("FeatureDetectionStrategy", "features"), ("PerformanceStrategy", "performance"),
    ("MathStrategy", "math"), ("DateTimeStrategy", "dateTime"),
    ("PrivacyStrategy", "privacy"), ("HistoryStrategy", "history"),
    ("MediaCodecsStrategy", "codecs"), ("WebRTCStrategy", "webRTC"),
    ("ScreenOrientationStrategy", "orientation"), ("DeviceMotionStrategy", "deviceMotion") ]

/-- Fingerprint field key for a strategy name:
`keyMapping[name] || name.toLowerCase().replace('strategy', '')`
(src/fingerprint.js:908-909). -/
def aggKey (strategyName : String) : String :=
  match alookup keyMapping strategyName with
  | some k => k
  | none => stringReplaceFirst (toLowerStr strategyName) "strategy" ""

/-- Model of `FingerprintCollector.aggregateResults(results)`
(src/fingerprint.js:873-914): rename each strategy's entry through `aggKey`
into the fingerprint object. -/
def aggregateResults (results : List (String × Value)) : Value :=
  .obj (results.foldl (fun acc nv => jsAssocSet acc (aggKey nv.1) nv.2) [])

/-- Model of `StrategyRegistry` (src/fingerprint.js:664-742): a JS `Map` from
names to strategies. -/
structure StrategyRegistry where
  strategies : List (String × Strategy)

/-- Model of `StrategyRegistry.register(strategy)` (src/fingerprint.js:672-681)
after the `instanceof` guard (every modelled `Strategy` is a strategy):
`this.strategies.set(strategy.name, strategy)`. -/
def registerStrategy (r : StrategyRegistry) (s : Strategy) : StrategyRegistry :=
  ⟨jsAssocSet r.strategies s.name s⟩

/-- Stable insertion of a strategy before the first strictly-later priority;
equal priorities keep the inserted element first. -/
def orderedInsertByPriority (s : Strategy) : List Strategy → List Strategy
  | [] => [s]
  | b :: l =>
    if s.priority ≤ b.priority then s :: b :: l
    else b :: orderedInsertByPriority s l

/-- Stable ascending sort by priority, the semantics of
`Array.prototype.sort` (stable per the ECMAScript spec) with the comparator
`(a, b) => a.priority - b.priority`. -/
def sortByPriority : List Strategy → List Strategy
  | [] => []
  | s :: l => orderedInsertByPriority s (sortByPriority l)

/-- Model of `StrategyRegistry.getEnabledStrategies()`
(src/fingerprint.js:700-704): enabled strategies in registration order,
stably sorted by ascending priority. -/
def getEnabledStrategies (cfg : Value) (r : StrategyRegistry) : List Strategy :=
  sortByPriority ((r.strategies.map Prod.snd).filter (strategyIsEnabled cfg))

/-- Model of `FingerprintCollector.getStableComponentsForCache()`
(src/fingerprint.js:920-953): take the first five enabled synchronous
low-priority strategies, call `execute()` directly, skip any call returning a
thenable (every `async` method does), catch synchronous throws, and keep only
truthy `getStableComponents` payloads. -/
def getStableComponentsForCache (cfg : Value) (r : StrategyRegistry) : Value :=
  let syncStrategies :=
    ((getEnabledStrategies cfg r).filter fun s =>
      !s.requiresAsync && decide (s.priority ≤ 20)).take 5
  .obj (syncStrategies.foldl
    (fun acc s =>
      if s.execThenable then acc
      else
        match s.execOutcome with
        | .err => acc
        | .ok result =>
          let stable := s.stable result
          if truthy stable then jsAssocSet acc s.name stable else acc)
    [])

/-- Model of `Cache.generateCacheKey(stableComponents)`
(src/fingerprint.js:336-339). -/
def generateCacheKey (stableComponents : Value) : String :=
  simpleHash (stringify stableComponents)

/-- Property read `v[k]` on a modelled object; a missing property reads as
`null` (the model does not distinguish `undefined` from `null` — the
distinction is never observable in the orchestrator claims). -/
def jsField (v : Value) (k : String) : Value :=
  match v with
  | .obj fs =>
    match alookup fs k with
    | some x => x
    | none => .null
  | _ => .null

/-- Model of `Cache.getStableComponents(fingerprint)`
(src/fingerprint.js:342-375). -/
def cacheGetStableComponents (fp : Value) : Value :=
  .obj
    [ ("screen",
        if truthy (jsField fp "screen") then
          .obj [ ("width", jsField (jsField fp "screen") "width"),
                 ("height", jsField (jsField fp "screen") "height"),
                 ("colorDepth", jsField (jsField fp "screen") "colorDepth"),
                 ("pixelRatio", jsField (jsField fp "screen") "pixelRatio") ]
        else .null),
      ("platform", jsField fp "platform"),
      ("language", jsField fp "language"),
      ("timeZone",
        if truthy (jsField fp "timeZone") then
          .obj [ ("name", jsField (jsField fp "timeZone") "name"),
                 ("offsetMinutes", jsField (jsField fp "timeZone") "offsetMinutes") ]
        else .null),
      ("userAgent",
        if truthy (jsField fp "userAgent") then
          .obj [ ("platform", jsField (jsField fp "userAgent") "platform"),
                 ("vendor", jsField (jsField fp "userAgent") "vendor") ]
        else .null),
      ("webgl",
        if truthy (jsField fp "webgl") then
          .obj [ ("vendor", jsField (jsField fp "webgl") "vendor"),
                 ("renderer", jsField (jsField fp "webgl") "renderer"),
                 ("version", jsField (jsField fp "webgl") "version") ]
        else .null),
      ("canvas",
        if truthy (jsField fp "canvasFingerprint") then
          .obj [ ("basic", jsField (jsField fp "canvasFingerprint") "basic") ]
        else .null),
      ("audio",
        if truthy (jsField fp "audioFingerprint") then
          .obj [ ("fingerprint", jsField (jsField fp "audioFingerprint") "fingerprint"),
                 ("sampleRate", jsField (jsField fp "audioFingerprint") "sampleRate") ]
        else .null),
      ("fonts", jsField fp "fonts"),
      ("features", jsField fp "features") ]

/-- Payload stored in the cache by `FingerprintCollector.collect`
(src/fingerprint.js:810-815). -/
structure CachedFingerprint where
  fingerprint : Value
  fingerprintHash : String
  timestamp : Int
  version : String

/-- Composite record returned by `FingerprintCollector.collect`
(src/fingerprint.js:799-805); `cacheKey = none` models the field being left
undefined. -/
structure CollectResult where
  fingerprint : Value
  fingerprintHash : String
  timestamp : Int
  version : String
  cached : Bool
  cacheKey : Option String

/-- Model of `FingerprintCollector.collect()` (src/fingerprint.js:756-846) at
a fixed current configuration (the `userConfig` re-initialization branch is
taken with an empty override).  `hashFn` is the hashing collaborator
(`cryptoHash`, src/fingerprint.js:2338-2352: SHA-256 when available, else
`simpleHash`; deterministic either way); `now` models the call's `Date.now()`
instant.  Besides the composite and the updated cache state, the model
returns the names of the strategies whose `collect()` pipeline was invoked —
empty on the cache-hit path, which runs no probe collection (the cache-key
derivation's synchronous sampling of `getStableComponentsForCache` is
separate and happens on every cache-enabled call). -/
def collectorCollect (hashFn : String → String) (cfg : Value)
    (r : StrategyRegistry) (now : Int) (st : CacheState CachedFingerprint) :
    CollectResult × CacheState CachedFingerprint × List String :=
  let cachingOn := truthy (configGet cfg "cache.enabled" (.bool true))
  let checked : Option String × Option CachedFingerprint × CacheState CachedFingerprint :=
    if cachingOn then
      let stableComponents := getStableComponentsForCache cfg r
      let cacheKey := generateCacheKey stableComponents
      let got := cacheGet cfg now cacheKey st
      (some cacheKey, got.1, got.2)
    else (none, none, st)
  match checked with
  | (keyOpt, some cachedResult, st1) =>
    ({ fingerprint := cachedResult.fingerprint,
       fingerprintHash := cachedResult.fingerprintHash,
       timestamp := cachedResult.timestamp,
       version := cachedResult.version,
       cached := true,
       cacheKey := keyOpt }, st1, [])
  | (keyOpt, none, st1) =>
    let strategies := getEnabledStrategies cfg r
    let results := executeStrategies cfg strategies
    let fingerprintObject := aggregateResults results
    let fingerprintHash := hashFn (stringify fingerprintObject)
    let ran := strategies.map (fun s => s.name)
    let cachingOn2 := truthy (configGet cfg "cache.enabled" (.bool true))
    match keyOpt with
    | some cacheKey =>
      if cachingOn2 then
        let st2 := cacheSet cfg now cacheKey
          ⟨fingerprintObject, fingerprintHash, now, "3.0.0"⟩ st1
        ({ fingerprint := fingerprintObject, fingerprintHash := fingerprintHash,
           timestamp := now, version := "3.0.0", cached := false,
           cacheKey := some cacheKey }, st2, ran)
      else
        ({ fingerprint := fingerprintObject, fingerprintHash := fingerprintHash,
           timestamp := now, version := "3.0.0", cached := false,
           cacheKey := none }, st1, ran)
    | none =>
      if cachingOn2 then
        let stableComponents := cacheGetStableComponents fingerprintObject
        let cacheKey := generateCacheKey stableComponents
        let st2 := cacheSet cfg now cacheKey
          ⟨fingerprintObject, fingerprintHash, now, "3.0.0"⟩ st1
        ({ fingerprint := fingerprintObject, fingerprintHash := fingerprintHash,
           timestamp := now, version := "3.0.0", cached := false,
           cacheKey := some cacheKey }, st2, ran)
      else
        ({ fingerprint := fingerprintObject, fingerprintHash := fingerprintHash,
           timestamp := now, version := "3.0.0", cached := false,
           cacheKey := none }, st1, ran)

/-!
## Basic lemmas about the JS map primitives
-/

theorem alookup_jsAssocSet_self {α : Type} (m : List (String × α)) (k : String) (v : α) :
    alookup (jsAssocSet m k v) k = some v := by
  induction m with
  | nil => simp [jsAssocSet, alookup]
  | cons hd tl ih =>
    by_cases h : hd.1 = k
    · simp [jsAssocSet, alookup, h]
    · cases hd with
      | mk k' v' =>
        simp only at h
        simp [jsAssocSet, alookup, h, ih]

theorem alookup_jsAssocSet_ne {α : Type} (m : List (String × α)) (k k' : String) (v : α)
    (h : k' ≠ k) : alookup (jsAssocSet m k v) k' = alookup m k' := by
  induction m with
  | nil => simp [jsAssocSet, alookup, Ne.symm h]
  | cons hd tl ih =>
    cases hd with
    | mk k0 v0 =>
      by_cases h0 : k0 = k
      · simp [jsAssocSet, alookup, h0, Ne.symm h]
      · simp [jsAssocSet, alookup, h0, ih]

theorem alookup_aerase_ne {α : Type} (m : List (String × α)) (k k' : String)
    (h : k' ≠ k) : alookup (aerase m k) k' = alookup m k' := by
  induction m with
  | nil => simp [aerase]
  | cons hd tl ih =>
    cases hd with
    | mk k0 v0 =>
      by_cases h0 : k0 = k
      · simp [aerase, alookup, h0, Ne.symm h]
      · simp [aerase, alookup, h0, ih]

theorem alookup_eq_none_iff {α : Type} (m : List (String × α)) (k : String) :
    alookup m k = none ↔ k ∉ keysOf m := by
  induction m with
  | nil => simp [alookup, keysOf]
  | cons hd tl ih =>
    cases hd with
    | mk k0 v0 =>
      by_cases h0 : k0 = k
      · simp [alookup, keysOf, h0]
      · simp [alookup, keysOf, h0, ih, Ne.symm h0]

theorem mem_keysOf_of_alookup {α : Type} (m : List (String × α)) (k : String) (v : α)
    (h : alookup m k = some v) : k ∈ keysOf m := by
  by_contra hk
  rw [← alookup_eq_none_iff] at hk
  rw [h] at hk
  cases hk

theorem alookup_aerase_self {α : Type} (m : List (String × α)) (k : String)
    (hnodup : (keysOf m).Nodup) : alookup (aerase m k) k = none := by
  induction m with
  | nil => simp [aerase, alookup]
  | cons hd tl ih =>
    cases hd with
    | mk k0 v0 =>
      have hnd : k0 ∉ keysOf tl ∧ (keysOf tl).Nodup := by
        have h2 := List.nodup_cons.mp (show (k0 :: keysOf tl).Nodup from hnodup)
        exact h2
      by_cases h0 : k0 = k
      · subst h0
        have herase : aerase ((k0, v0) :: tl) k0 = tl := by simp [aerase]
        rw [herase, alookup_eq_none_iff]
        exact hnd.1
      · simp [aerase, alookup, h0, ih hnd.2]

theorem keysOf_jsAssocSet {α : Type} (m : List (String × α)) (k : String) (v : α) :
    keysOf (jsAssocSet m k v) =
      if k ∈ keysOf m then keysOf m else keysOf m ++ [k] := by
  induction m with
  | nil => simp [jsAssocSet, keysOf]
  | cons hd tl ih =>
    cases hd with
    | mk k0 v0 =>
      by_cases h0 : k0 = k
      · simp [jsAssocSet, keysOf, h0]
      · simp only [jsAssocSet, h0, if_false, beq_iff_eq, keysOf, List.map_cons] at ih ⊢
        rw [ih]
        by_cases hmem : k ∈ List.map Prod.fst tl
        · simp [hmem, Ne.symm h0]
        · simp [hmem, Ne.symm h0]

theorem length_jsAssocSet_of_not_mem {α : Type} (m : List (String × α)) (k : String)
    (v : α) (h : k ∉ keysOf m) : (jsAssocSet m k v).length = m.length + 1 := by
  induction m with
  | nil => simp [jsAssocSet]
  | cons hd tl ih =>
    cases hd with
    | mk k0 v0 =>
      simp only [keysOf, List.map_cons, List.mem_cons, not_or] at h
      simp [jsAssocSet, Ne.symm h.1, ih h.2]

theorem jsAssocSet_ne_nil {α : Type} (m : List (String × α)) (k : String) (v : α) :
    jsAssocSet m k v ≠ [] := by
  cases m with
  | nil => simp [jsAssocSet]
  | cons hd tl =>
    cases hd with
    | mk k0 v0 =>
      by_cases h0 : k0 = k <;> simp [jsAssocSet, h0]

theorem jsAssocSet_split {α : Type} (l1 l2 : List (String × α)) (k : String)
    (old v : α) (hl1 : k ∉ keysOf l1) :
    jsAssocSet (l1 ++ (k, old) :: l2) k v = l1 ++ (k, v) :: l2 := by
  induction l1 with
  | nil => simp [jsAssocSet]
  | cons hd tl ih =>
    cases hd with
    | mk k0 v0 =>
      simp only [keysOf, List.map_cons, List.mem_cons, not_or] at hl1
      simp [jsAssocSet, Ne.symm hl1.1, ih hl1.2]

/-!
## C7 — ConfigStore.get path resolution
-/

/-- Configuration tree whose `"a"` is a sequence: the source's traversal
condition `typeof value === 'object'` is also true of arrays, so `get`
descends into the sequence by index instead of returning the default. -/
def c7ArrayTree : Value := .obj [("a", .arr [.str "x"])]

/-- C7 counterexample: the claim requires `get` to return the default as soon
as the traversal reaches a non-mapping value before the path is exhausted; on
`c7ArrayTree` the value at `"a"` is a sequence (a non-mapping value) and the
path `"a.0"` is not yet exhausted, yet `get("a.0", "d")` returns the array
element `"x"`, not the default `"d"`. -/
theorem c7_counterexample :
    configGet c7ArrayTree "a.0" (.str "d") = .str "x" ∧
    configGet c7ArrayTree "a.0" (.str "d") ≠ .str "d" := by
  constructor
  · rfl
  · intro h
    have h2 : configGet c7ArrayTree "a.0" (.str "d") = .str "x" := rfl
    rw [h2] at h
    exact absurd (Value.str.inj h) (by decide)

/-- C7 as amended: `get(path, default)` returns `default` the moment any
segment is missing or the traversal reaches a value that is not a JS object —
`null` or a scalar; arrays count as objects (`typeof 'object'`) and are
traversed by index and `length` segments.  The failing step is the first
segment `k` at which `jsGetKeyObjArr` has no value. -/
theorem c7_get_default_on_failed_step (current : Value) (path : String)
    (ks1 : List String) (k : String) (ks2 : List String) (d v' : Value)
    (hsplit : splitDot path = ks1 ++ k :: ks2)
    (hpre : configTraverse current ks1 = some v')
    (hfail : jsGetKeyObjArr v' k = none) :
    configGet current path d = d := by
  unfold configGet
  rw [hsplit]
  clear hsplit
  induction ks1 generalizing current with
  | nil =>
    simp only [configTraverse, Option.some.injEq] at hpre
    subst hpre
    simp [configGetLoop, hfail]
  | cons k1 tl ih =>
    simp only [configTraverse] at hpre
    cases h1 : jsGetKeyObjArr current k1 with
    | none => rw [h1] at hpre; cases hpre
    | some v1 =>
      rw [h1] at hpre
      simp only [List.cons_append, configGetLoop, h1]
      exact ih v1 hpre

/-- Witness: the claim's own instance — `"a.b"` resolves to a scalar, so
`get("a.b.c", "d")` returns the default. -/
def c7ScalarTree : Value := .obj [("a", .obj [("b", .num 5)])]

theorem c7_get_default_on_failed_step_witness :
    configGet c7ScalarTree "a.b.c" (.str "d") = .str "d" :=
  c7_get_default_on_failed_step c7ScalarTree "a.b.c" ["a", "b"] "c" []
    (.str "d") (.num 5) rfl rfl rfl

/-!
## C1 — per-probe timeout wrapping
-/

/-- An enabled probe with `timeoutMs = 50` whose `execute()` fulfills with
`"v"` after 500 ms. -/
def probeFifty : Strategy :=
  { name := "ProbeFifty", enabled := true, priority := 100, timeout := some 50,
    requiresAsync := true, execOutcome := .ok (.str "v"), execDurationMs := 500,
    execThenable := true, stable := fun _ => .null, cleanupFails := false }

/-- C1: under the default configuration, a probe with `timeoutMs = 50` taking
500 ms does NOT yield `null`: `collect()` passes the numeric `this.timeout`
where `withTimeout` expects a timeout-type config key, so the effective
deadline is `Config.get('timeouts.50', 5000) = 5000` ms and the probe's value
`"v"` is returned.  This contradicts the claim (and the evident intent of the
per-strategy `this.timeout` assignments), which requires the probe's own 50 ms
deadline and a `null` entry. -/
theorem c1_timeout_type_misuse :
    strategyCollect defaultConfig probeFifty = Value.str "v" ∧
    configGet defaultConfig "timeouts.50" (Value.num 5000) = Value.num 5000 ∧
    Value.str "v" ≠ Value.null := by
  refine ⟨rfl, rfl, ?_⟩
  intro h
  cases h

/-!
## C4 — Cache.set writes and FIFO eviction
-/

/-- C4: with caching enabled and a numeric `maxSize`, `set(key, data)` first
writes `{key, data, now}` into the memory tier under `key` (leaving every
other entry untouched and in place), and then — exactly when the size
exceeds `maxSize` — evicts the earliest entry in insertion order, i.e. the
head of the map (FIFO, not access recency). -/
theorem c4_set_writes_and_evicts_fifo {α : Type} (cfg : Value) (now : Int)
    (key : String) (data : α) (st : CacheState α) (maxSize : Int)
    (henabled : truthy (configGet cfg "cache.enabled" .null) = true)
    (hmax : configGet cfg "cache.maxSize" (.num 100) = .num maxSize) :
    alookup (jsAssocSet st.memory key ⟨key, data, now⟩) key = some ⟨key, data, now⟩ ∧
    (∀ k, k ≠ key →
      alookup (jsAssocSet st.memory key ⟨key, data, now⟩) k = alookup st.memory k) ∧
    (cacheSet cfg now key data st).memory =
      (if maxSize < ((jsAssocSet st.memory key (⟨key, data, now⟩ : CacheEntry α)).length : Int)
       then (jsAssocSet st.memory key (⟨key, data, now⟩ : CacheEntry α)).tail
       else jsAssocSet st.memory key ⟨key, data, now⟩) := by
  refine ⟨alookup_jsAssocSet_self _ _ _,
          fun k hk => alookup_jsAssocSet_ne _ _ _ _ hk, ?_⟩
  unfold cacheSet
  rw [henabled, hmax]
  simp only [Bool.not_true, Bool.false_eq_true, if_false, jsSizeGt]
  cases hm1 : jsAssocSet st.memory key (⟨key, data, now⟩ : CacheEntry α) with
  | nil => exact absurd hm1 (jsAssocSet_ne_nil _ _ _)
  | cons hd tl =>
    cases hd with
    | mk k0 v0 => simp [keysOf, aerase]

/-- Configuration with `cache.maxSize = 2` for the C4 scenario. -/
def c4Cfg : Value :=
  .obj [("cache", .obj [("enabled", .bool true), ("ttl", .num 3600000),
        ("maxSize", .num 2), ("storage", .str "memory")])]

/-- Cache state after inserting `A` then `B` into an empty cache under
`c4Cfg`. -/
def c4St2 : CacheState Value :=
  cacheSet c4Cfg 1 "B" (Value.num 2) (cacheSet c4Cfg 0 "A" (Value.num 1) ⟨[], false, []⟩)

theorem c4_set_writes_and_evicts_fifo_witness :
    keysOf (cacheSet c4Cfg 2 "C" (Value.num 3) c4St2).memory = ["B", "C"] ∧
    (cacheSet c4Cfg 2 "C" (Value.num 3) c4St2).memory =
      (if (2 : Int) < ((jsAssocSet c4St2.memory "C" (⟨"C", Value.num 3, 2⟩ : CacheEntry Value)).length : Int)
       then (jsAssocSet c4St2.memory "C" (⟨"C", Value.num 3, 2⟩ : CacheEntry Value)).tail
       else jsAssocSet c4St2.memory "C" ⟨"C", Value.num 3, 2⟩) :=
  ⟨by rfl, (c4_set_writes_and_evicts_fifo c4Cfg 2 "C" (Value.num 3) c4St2 2 rfl rfl).2.2⟩

/-!
## C5 — Cache.get TTL semantics on the memory tier
-/

/-- C5: with caching enabled, numeric `ttl`, and the durable tier inactive,
`get(key)` returns a payload exactly when an entry for `key` is present in
the memory tier with `now - insertedAt < ttl`; an entry whose age is at least
`ttl` — though still physically present — is removed by the access and the
access misses. -/
theorem c5_get_ttl_expiry {α : Type} (cfg : Value) (now : Int) (key : String)
    (st : CacheState α) (ttl : Int)
    (henabled : truthy (configGet cfg "cache.enabled" .null) = true)
    (httl : configGet cfg "cache.ttl" (.num 3600000) = .num ttl)
    (hdur : (isStr (configGet cfg "cache.storage" (.str "memory")) "indexedDB"
             && st.durableReady) = false)
    (hnodup : (keysOf st.memory).Nodup) :
    (∀ p : α, (cacheGet cfg now key st).1 = some p ↔
      ∃ e : CacheEntry α, alookup st.memory key = some e ∧
        now - e.timestamp < ttl ∧ e.data = p) ∧
    (∀ e : CacheEntry α, alookup st.memory key = some e → ttl ≤ now - e.timestamp →
      (cacheGet cfg now key st).1 = none ∧
      alookup (cacheGet cfg now key st).2.memory key = none) := by
  have hdurable : ∀ t : CacheState α, t.durableReady = st.durableReady →
      cacheGetDurable (configGet cfg "cache.storage" (.str "memory"))
        (Value.num ttl) now key t = (none, t) := by
    intro t ht
    unfold cacheGetDurable
    rw [ht, hdur]
    simp
  have hmain : cacheGet cfg now key st =
      match alookup st.memory key with
      | some e =>
        if now - e.timestamp < ttl then (some e.data, st)
        else (none, ⟨aerase st.memory key, st.durableReady, st.durable⟩)
      | none => (none, st) := by
    unfold cacheGet
    rw [henabled, httl]
    simp only [Bool.not_true, Bool.false_eq_true, if_false]
    cases hlook : alookup st.memory key with
    | none => exact hdurable st rfl
    | some e =>
      by_cases hf : now - e.timestamp < ttl
      · simp [jsNumLt, hf]
      · simp [jsNumLt, hf,
          hdurable ⟨aerase st.memory key, st.durableReady, st.durable⟩ rfl]
  constructor
  · intro p
    rw [hmain]
    cases hlook : alookup st.memory key with
    | none => simp
    | some e =>
      dsimp only
      by_cases hf : now - e.timestamp < ttl
      · rw [if_pos hf]
        constructor
        · intro hp
          injection hp with hp
          exact ⟨e, rfl, hf, hp⟩
        · rintro ⟨e', he', -, hdata⟩
          injection he' with he'
          subst he'
          rw [hdata]
      · rw [if_neg hf]
        constructor
        · intro hp
          cases hp
        · rintro ⟨e', he', hf', -⟩
          injection he' with he'
          subst he'
          exact absurd hf' hf
  · intro e he hle
    rw [hmain, he]
    dsimp only
    rw [if_neg (by omega)]
    exact ⟨rfl, alookup_aerase_self st.memory key hnodup⟩

/-- Cache configuration with `ttl = 100` for the C5 scenario. -/
def c5Cfg : Value :=
  .obj [("cache", .obj [("enabled", .bool true), ("ttl", .num 100),
        ("maxSize", .num 10), ("storage", .str "memory")])]

/-- Memory tier holding one entry inserted at time 0. -/
def c5St : CacheState Value := ⟨[("k", ⟨"k", Value.str "p", 0⟩)], false, []⟩

theorem c5_get_ttl_expiry_witness :
    ((cacheGet c5Cfg 150 "k" c5St).1 = none ∧
     alookup (cacheGet c5Cfg 150 "k" c5St).2.memory "k" = none) ∧
    (cacheGet c5Cfg 50 "k" c5St).1 = some (Value.str "p") :=
  ⟨(c5_get_ttl_expiry c5Cfg 150 "k" c5St 100 rfl rfl rfl (by decide)).2
      ⟨"k", Value.str "p", 0⟩ rfl (by decide),
   ((c5_get_ttl_expiry c5Cfg 50 "k" c5St 100 rfl rfl rfl (by decide)).1
      (Value.str "p")).mpr ⟨⟨"k", Value.str "p", 0⟩, rfl, by decide, rfl⟩⟩

/-!
## C10 — Cache.get frame property on the memory tier
-/

theorem keysOf_aerase_sublist {α : Type} (m : List (String × α)) (k : String) :
    (keysOf (aerase m k)).Sublist (keysOf m) := by
  induction m with
  | nil => simp [aerase, keysOf]
  | cons hd tl ih =>
    cases hd with
    | mk k0 v0 =>
      by_cases h0 : k0 = k
      · simp only [aerase, h0, beq_self_eq_true, if_true, keysOf, List.map_cons]
        exact List.sublist_cons_self _ _
      · simpa only [aerase, h0, beq_iff_eq, if_false, keysOf, List.map_cons,
          List.cons_sublist_cons] using ih

theorem cacheGetDurable_memory_cases {α : Type} (storage ttlV : Value) (now : Int)
    (key : String) (st : CacheState α) :
    (cacheGetDurable storage ttlV now key st).2.memory = st.memory ∨
    (cacheGetDurable storage ttlV now key st).2.memory = aerase st.memory key ∨
    ∃ e, alookup st.durable key = some e ∧
      (cacheGetDurable storage ttlV now key st).2.memory = jsAssocSet st.memory key e := by
  unfold cacheGetDurable
  split
  · split
    · rename_i e heq
      split
      · right; right; exact ⟨e, heq, rfl⟩
      · right; left; rfl
    · left; rfl
  · left; rfl

theorem cacheGet_memory_cases {α : Type} (cfg : Value) (now : Int) (key : String)
    (st : CacheState α) :
    (cacheGet cfg now key st).2.memory = st.memory ∨
    (cacheGet cfg now key st).2.memory = aerase st.memory key ∨
    (cacheGet cfg now key st).2.memory = aerase (aerase st.memory key) key ∨
    ∃ e, alookup st.durable key = some e ∧
      ((cacheGet cfg now key st).2.memory = jsAssocSet st.memory key e ∨
       (cacheGet cfg now key st).2.memory = jsAssocSet (aerase st.memory key) key e) := by
  unfold cacheGet
  dsimp only
  split
  · left; rfl
  · split
    · split
      · left; rfl
      · rcases cacheGetDurable_memory_cases
          (configGet cfg "cache.storage" (.str "memory"))
          (configGet cfg "cache.ttl" (.num 3600000)) now key
          ⟨aerase st.memory key, st.durableReady, st.durable⟩ with h | h | ⟨e, he, h⟩
        · right; left; exact h
        · right; right; left; exact h
        · right; right; right; exact ⟨e, he, Or.inr h⟩
    · rcases cacheGetDurable_memory_cases
        (configGet cfg "cache.storage" (.str "memory"))
        (configGet cfg "cache.ttl" (.num 3600000)) now key st with h | h | ⟨e, he, h⟩
      · left; exact h
      · right; left; exact h
      · right; right; right; exact ⟨e, he, Or.inl h⟩

/-- Cache configuration with `maxSize = 1` and the durable tier requested, for
the size-overflow-by-promotion scenario. -/
def c10Cfg : Value :=
  .obj [("cache", .obj [("enabled", .bool true), ("ttl", .num 1000),
        ("maxSize", .num 1), ("storage", .str "indexedDB")])]

/-- Memory tier already at `maxSize = 1`, durable tier ready and holding a
fresh entry under `"b"`. -/
def c10St : CacheState Value :=
  ⟨[("a", ⟨"a", Value.num 1, 0⟩)], true, [("b", ⟨"b", Value.num 2, 0⟩)]⟩

/-- C10: `Cache.get(key)` touches the memory tier only at `key`: every other
entry is left unchanged (never evicted for `maxSize`), and at `key` the tier
is either unchanged, or the entry was removed, or a durable entry was
promoted in; in particular, promoting into a full memory tier under `c10Cfg`
leaves the tier at size 2, above `maxSize = 1`. -/
theorem c10_get_frame {α : Type} (cfg : Value) (now : Int) (key : String)
    (st : CacheState α) (hnodup : (keysOf st.memory).Nodup) :
    (∀ k, k ≠ key →
      alookup (cacheGet cfg now key st).2.memory k = alookup st.memory k) ∧
    (alookup (cacheGet cfg now key st).2.memory key = alookup st.memory key ∨
     alookup (cacheGet cfg now key st).2.memory key = none ∨
     ∃ e, alookup st.durable key = some e ∧
       alookup (cacheGet cfg now key st).2.memory key = some e) ∧
    (cacheGet c10Cfg 5 "b" c10St).2.memory.length = 2 ∧
    configGet c10Cfg "cache.maxSize" (.num 100) = .num 1 := by
  refine ⟨?_, ?_, by rfl, rfl⟩
  · intro k hk
    rcases cacheGet_memory_cases cfg now key st with h | h | h | ⟨e, _, h | h⟩ <;> rw [h]
    · exact alookup_aerase_ne _ _ _ hk
    · rw [alookup_aerase_ne _ _ _ hk]
      exact alookup_aerase_ne _ _ _ hk
    · exact alookup_jsAssocSet_ne _ _ _ _ hk
    · rw [alookup_jsAssocSet_ne _ _ _ _ hk]
      exact alookup_aerase_ne _ _ _ hk
  · rcases cacheGet_memory_cases cfg now key st with h | h | h | ⟨e, he, h | h⟩
    · left; rw [h]
    · right; left
      rw [h]
      exact alookup_aerase_self _ _ hnodup
    · right; left
      rw [h]
      exact alookup_aerase_self _ _
        (List.Nodup.sublist (keysOf_aerase_sublist st.memory key) hnodup)
    · right; right
      exact ⟨e, he, by rw [h]; exact alookup_jsAssocSet_self _ _ _⟩
    · right; right
      exact ⟨e, he, by rw [h]; exact alookup_jsAssocSet_self _ _ _⟩

theorem c10_get_frame_witness :
    alookup (cacheGet c10Cfg 5 "b" c10St).2.memory "a" = alookup c10St.memory "a" :=
  (c10_get_frame c10Cfg 5 "b" c10St (by decide)).1 "a" (by decide)

/-!
## C9 — re-registration keeps the original position
-/

theorem alookup_append_cons_self {α : Type} (l1 l2 : List (String × α)) (k : String)
    (v : α) (h : k ∉ keysOf l1) : alookup (l1 ++ (k, v) :: l2) k = some v := by
  induction l1 with
  | nil => simp [alookup]
  | cons hd tl ih =>
    cases hd with
    | mk k0 v0 =>
      simp only [keysOf, List.map_cons, List.mem_cons, not_or] at h
      simp only [List.cons_append, alookup, beq_iff_eq]
      rw [if_neg (Ne.symm h.1)]
      exact ih h.2

/-- Empty configuration: every feature flag falls back to its default
`true`. -/
def c9Cfg : Value := .obj []

/-- Strategy registered first, priority 5. -/
def c9Alpha : Strategy :=
  { name := "Alpha", enabled := true, priority := 5, timeout := none,
    requiresAsync := false, execOutcome := .ok (.num 1), execDurationMs := 0,
    execThenable := true, stable := fun _ => .null, cleanupFails := false }

/-- Strategy registered second, also priority 5 (a priority tie). -/
def c9Beta : Strategy := { c9Alpha with name := "Beta", execOutcome := .ok (.num 2) }

/-- A replacement instance re-registered under the name `"Alpha"`. -/
def c9AlphaPrime : Strategy := { c9Alpha with execOutcome := .ok (.num 3) }

/-- Registry after registering `Alpha` then `Beta`. -/
def c9R0 : StrategyRegistry := registerStrategy (registerStrategy ⟨[]⟩ c9Alpha) c9Beta

/-- Registry after re-registering `Alpha`. -/
def c9R1 : StrategyRegistry := registerStrategy c9R0 c9AlphaPrime

/-- C9: registering under an already-registered name replaces the stored
strategy in place — same key list, same position, new value, all other
entries untouched; consequently, with the stable priority sort breaking ties
by registration order, the re-registered `Alpha` (priority tied with `Beta`)
still sorts at its first registration's position, ahead of `Beta`, and the
stored instance is the newest one. -/
theorem c9_reregister_keeps_position (r : StrategyRegistry) (s old : Strategy)
    (l1 l2 : List (String × Strategy))
    (hsplit : r.strategies = l1 ++ (s.name, old) :: l2)
    (hl1 : s.name ∉ keysOf l1) :
    (registerStrategy r s).strategies = l1 ++ (s.name, s) :: l2 ∧
    keysOf (registerStrategy r s).strategies = keysOf r.strategies ∧
    alookup (registerStrategy r s).strategies s.name = some s ∧
    (getEnabledStrategies c9Cfg c9R1).map (fun t => t.name) = ["Alpha", "Beta"] ∧
    alookup c9R1.strategies "Alpha" = some c9AlphaPrime := by
  have h1 : (registerStrategy r s).strategies = l1 ++ (s.name, s) :: l2 := by
    unfold registerStrategy
    rw [hsplit]
    exact jsAssocSet_split l1 l2 s.name old s hl1
  refine ⟨h1, ?_, ?_, rfl, rfl⟩
  · rw [h1, hsplit]
    simp [keysOf]
  · rw [h1]
    exact alookup_append_cons_self l1 l2 s.name s hl1

theorem c9_reregister_keeps_position_witness :
    (registerStrategy c9R0 c9AlphaPrime).strategies =
      [] ++ (c9AlphaPrime.name, c9AlphaPrime) :: [("Beta", c9Beta)] ∧
    keysOf (registerStrategy c9R0 c9AlphaPrime).strategies = keysOf c9R0.strategies ∧
    alookup (registerStrategy c9R0 c9AlphaPrime).strategies c9AlphaPrime.name =
      some c9AlphaPrime ∧
    (getEnabledStrategies c9Cfg c9R1).map (fun t => t.name) = ["Alpha", "Beta"] ∧
    alookup c9R1.strategies "Alpha" = some c9AlphaPrime :=
  c9_reregister_keeps_position c9R0 c9AlphaPrime c9Alpha [] [("Beta", c9Beta)]
    rfl (by simp [keysOf])

/-!
## C2 — components key set
-/

/-- Key list of a modelled object (`Object.keys`); `[]` on non-objects. -/
def objKeys (v : Value) : List String :=
  match v with
  | .obj fs => keysOf fs
  | _ => []

theorem mem_keysOf_jsAssocSet {α : Type} (m : List (String × α)) (key k : String)
    (v : α) : k ∈ keysOf (jsAssocSet m key v) ↔ k ∈ keysOf m ∨ k = key := by
  rw [keysOf_jsAssocSet]
  by_cases h : key ∈ keysOf m
  · rw [if_pos h]
    constructor
    · exact Or.inl
    · rintro (hk | rfl)
      · exact hk
      · exact h
  · rw [if_neg h]
    simp [List.mem_append]

theorem mem_keysOf_foldl_jsAssocSet {α β : Type} (f : β → String) (g : β → α)
    (l : List β) (acc : List (String × α)) (k : String) :
    k ∈ keysOf (l.foldl (fun a x => jsAssocSet a (f x) (g x)) acc) ↔
      k ∈ keysOf acc ∨ ∃ x ∈ l, f x = k := by
  induction l generalizing acc with
  | nil => simp
  | cons hd tl ih =>
    rw [List.foldl_cons, ih, mem_keysOf_jsAssocSet]
    constructor
    · rintro ((h | rfl) | ⟨x, hx, rfl⟩)
      · exact Or.inl h
      · exact Or.inr ⟨hd, List.mem_cons_self _ _, rfl⟩
      · exact Or.inr ⟨x, List.mem_cons_of_mem _ hx, rfl⟩
    · rintro (h | ⟨x, hx, rfl⟩)
      · exact Or.inl (Or.inl h)
      · rcases List.mem_cons.mp hx with rfl | hx'
        · exact Or.inl (Or.inr rfl)
        · exact Or.inr ⟨x, hx', rfl⟩

theorem zip_self_map {α β : Type} (l : List α) (f : α → β) :
    l.zip (l.map f) = l.map fun a => (a, f a) := by
  induction l with
  | nil => rfl
  | cons hd tl ih => simp [ih]

theorem mem_keysOf_executeStrategies (cfg : Value) (strategies : List Strategy)
    (k : String) :
    k ∈ keysOf (executeStrategies cfg strategies) ↔
      ∃ s ∈ strategies, s.name = k := by
  unfold executeStrategies buildResults
  rw [zip_self_map, List.foldl_map]
  have h := mem_keysOf_foldl_jsAssocSet (fun s : Strategy => s.name)
    (fun s => match strategySettle cfg s with
              | .fulfilled v => v
              | .rejected => Value.null) strategies [] k
  rw [show (keysOf ([] : List (String × Value))) = [] from rfl] at h
  simpa using h

theorem mem_orderedInsertByPriority (s a : Strategy) (l : List Strategy) :
    a ∈ orderedInsertByPriority s l ↔ a = s ∨ a ∈ l := by
  induction l with
  | nil => simp [orderedInsertByPriority]
  | cons hd tl ih =>
    unfold orderedInsertByPriority
    by_cases h : s.priority ≤ hd.priority
    · rw [if_pos h]
      simp
    · rw [if_neg h]
      simp only [List.mem_cons, ih]
      tauto

theorem mem_sortByPriority (a : Strategy) (l : List Strategy) :
    a ∈ sortByPriority l ↔ a ∈ l := by
  induction l with
  | nil => simp [sortByPriority]
  | cons hd tl ih =>
    unfold sortByPriority
    rw [mem_orderedInsertByPriority, ih]
    simp

theorem mem_getEnabledStrategies (cfg : Value) (r : StrategyRegistry) (s : Strategy) :
    s ∈ getEnabledStrategies cfg r ↔
      s ∈ r.strategies.map Prod.snd ∧ strategyIsEnabled cfg s = true := by
  unfold getEnabledStrategies
  rw [mem_sortByPriority, List.mem_filter]

/-- C2 counterexample: a registry holding one enabled probe registered under
the name `"FooStrategy"`.  The composite's `components` key set is
`{"foo"}` — the name mapped through `aggregateResults`'s renaming — not the
probe name set `{"FooStrategy"}` required by the claim. -/
def fooStrategy : Strategy :=
  { name := "FooStrategy", enabled := true, priority := 1, timeout := none,
    requiresAsync := false, execOutcome := .ok (.num 7), execDurationMs := 0,
    execThenable := true, stable := fun _ => .null, cleanupFails := false }

/-- Registry holding exactly `fooStrategy`. -/
def c2Registry : StrategyRegistry := registerStrategy ⟨[]⟩ fooStrategy

theorem c2_counterexample :
    (getEnabledStrategies c9Cfg c2Registry).map (fun s => s.name) = ["FooStrategy"] ∧
    objKeys (aggregateResults
      (executeStrategies c9Cfg (getEnabledStrategies c9Cfg c2Registry))) = ["foo"] ∧
    (["foo"] : List String) ≠ ["FooStrategy"] :=
  ⟨rfl, rfl, by decide⟩

/-- C2 as amended: the `components` key set of an execution over the enabled
strategies equals exactly the image of the enabled probes' names under the
static renaming `aggKey` (`keyMapping`, defaulting to the lowercased name
with `"strategy"` removed) — every enabled probe contributes its mapped name
and every key is some enabled probe's mapped name. -/
theorem c2_components_keys_image (cfg : Value) (r : StrategyRegistry) (k : String) :
    k ∈ objKeys (aggregateResults
        (executeStrategies cfg (getEnabledStrategies cfg r))) ↔
      ∃ s, s ∈ r.strategies.map Prod.snd ∧ strategyIsEnabled cfg s = true ∧
        aggKey s.name = k := by
  unfold aggregateResults objKeys
  have h := mem_keysOf_foldl_jsAssocSet (fun nv : String × Value => aggKey nv.1)
    (fun nv => nv.2) (executeStrategies cfg (getEnabledStrategies cfg r)) [] k
  rw [show (keysOf ([] : List (String × Value))) = [] from rfl] at h
  rw [h]
  simp only [List.mem_nil_iff, false_or]
  constructor
  · rintro ⟨nv, hnv, rfl⟩
    have hname : nv.1 ∈ keysOf (executeStrategies cfg (getEnabledStrategies cfg r)) :=
      List.mem_map_of_mem Prod.fst hnv
    rcases (mem_keysOf_executeStrategies cfg _ nv.1).mp hname with ⟨s, hs, hsn⟩
    rcases (mem_getEnabledStrategies cfg r s).mp hs with ⟨hsv, hse⟩
    exact ⟨s, hsv, hse, by rw [hsn]⟩
  · rintro ⟨s, hsv, hse, rfl⟩
    have hs : s ∈ getEnabledStrategies cfg r :=
      (mem_getEnabledStrategies cfg r s).mpr ⟨hsv, hse⟩
    have hname : s.name ∈ keysOf (executeStrategies cfg (getEnabledStrategies cfg r)) :=
      (mem_keysOf_executeStrategies cfg _ s.name).mpr ⟨s, hs, rfl⟩
    rcases List.mem_map.mp hname with ⟨nv, hnv, hfst⟩
    exact ⟨nv, hnv, by rw [hfst]⟩

theorem c2_components_keys_image_witness :
    "foo" ∈ objKeys (aggregateResults
        (executeStrategies c9Cfg (getEnabledStrategies c9Cfg c2Registry))) ↔
      ∃ s, s ∈ c2Registry.strategies.map Prod.snd ∧
        strategyIsEnabled c9Cfg s = true ∧ aggKey s.name = "foo" :=
  c2_components_keys_image c9Cfg c2Registry "foo"

/-!
## C3 — failure containment
-/

/-- Value contributed to `strategyResults` by one strategy's settlement:
its fulfilled value, or `null` when its promise rejected. -/
def settledValue (cfg : Value) (t : Strategy) : Value :=
  match strategySettle cfg t with
  | .fulfilled v => v
  | .rejected => .null

theorem alookup_foldl_jsAssocSet_of_ne {α β : Type} (f : β → String) (g : β → α)
    (l : List β) (acc : List (String × α)) (key : String)
    (h : ∀ x ∈ l, f x ≠ key) :
    alookup (l.foldl (fun a x => jsAssocSet a (f x) (g x)) acc) key = alookup acc key := by
  induction l generalizing acc with
  | nil => rfl
  | cons hd tl ih =>
    rw [List.foldl_cons, ih _ fun x hx => h x (List.mem_cons_of_mem _ hx)]
    exact alookup_jsAssocSet_ne _ _ _ _ (Ne.symm (h hd (List.mem_cons_self _ _)))

theorem alookup_foldl_jsAssocSet_unique {α β : Type} (f : β → String) (g : β → α)
    (l : List β) (t : β) :
    ∀ acc : List (String × α), t ∈ l → (l.map f).Nodup →
      alookup (l.foldl (fun a x => jsAssocSet a (f x) (g x)) acc) (f t) = some (g t) := by
  induction l with
  | nil => intro acc hmem _; cases hmem
  | cons hd tl ih =>
    intro acc hmem hnodup
    have hnd := List.nodup_cons.mp (show (f hd :: tl.map f).Nodup from hnodup)
    rcases List.mem_cons.mp hmem with rfl | htl
    · rw [List.foldl_cons,
        alookup_foldl_jsAssocSet_of_ne f g tl _ (f t)
          (fun x hx hfx => hnd.1 (hfx ▸ List.mem_map_of_mem f hx))]
      exact alookup_jsAssocSet_self _ _ _
    · exact ih _ htl hnd.2

theorem alookup_executeStrategies_self (cfg : Value) (strategies : List Strategy)
    (t : Strategy) (hnodup : (strategies.map (fun s => s.name)).Nodup)
    (hmem : t ∈ strategies) :
    alookup (executeStrategies cfg strategies) t.name = some (settledValue cfg t) := by
  unfold executeStrategies buildResults
  rw [zip_self_map, List.foldl_map]
  exact alookup_foldl_jsAssocSet_unique (fun s : Strategy => s.name)
    (fun s => settledValue cfg s) strategies t [] hmem hnodup

theorem strategyCollect_err (cfg : Value) (s : Strategy)
    (hen : strategyIsEnabled cfg s = true) (herr : s.execOutcome = .err) :
    strategyCollect cfg s = Value.null := by
  unfold strategyCollect withTimeout
  rw [hen, herr, if_neg (not_not_intro rfl)]
  cases s.timeout with
  | none => rfl
  | some t =>
    dsimp only
    by_cases h0 : (t != 0) = true
    · rw [if_pos h0]
      by_cases hd : s.execDurationMs <
          jsToMs (configGet cfg ("timeouts." ++ toString t) (Value.num 5000))
      · rw [if_pos hd]
      · rw [if_neg hd]
    · rw [if_neg h0]

/-- C3: when a selected, enabled probe's `execute()` fails, the failure is
caught and recorded as a `null` entry under that probe's own name, and every
sibling strategy's entry is still present and equal to its own settlement's
value — a value computed from that sibling alone, so the failure neither
aborts siblings nor escapes `executeStrategies`. -/
theorem c3_failure_contained (cfg : Value) (strategies : List Strategy)
    (hnodup : (strategies.map (fun s => s.name)).Nodup)
    (s : Strategy) (hmem : s ∈ strategies)
    (hen : strategyIsEnabled cfg s = true) (herr : s.execOutcome = .err) :
    alookup (executeStrategies cfg strategies) s.name = some Value.null ∧
    ∀ t, t ∈ strategies → t.name ≠ s.name →
      alookup (executeStrategies cfg strategies) t.name = some (settledValue cfg t) := by
  constructor
  · have h := alookup_executeStrategies_self cfg strategies s hnodup hmem
    have hval : settledValue cfg s = Value.null := by
      unfold settledValue strategySettle
      rw [hen, if_neg (not_not_intro rfl)]
      by_cases hc : s.cleanupFails = true
      · rw [if_pos hc]
      · rw [if_neg hc]
        dsimp only
        rw [strategyCollect_err cfg s hen herr]
    rw [hval] at h
    exact h
  · intro t ht _
    exact alookup_executeStrategies_self cfg strategies t hnodup ht

/-- A sibling strategy that succeeds with the value 1. -/
def c3Ok : Strategy :=
  { name := "Alpha", enabled := true, priority := 1, timeout := none,
    requiresAsync := false, execOutcome := .ok (.num 1), execDurationMs := 0,
    execThenable := true, stable := fun _ => .null, cleanupFails := false }

/-- A strategy whose `execute()` always fails. -/
def c3Boom : Strategy :=
  { name := "Boom", enabled := true, priority := 2, timeout := none,
    requiresAsync := false, execOutcome := .err, execDurationMs := 0,
    execThenable := true, stable := fun _ => .null, cleanupFails := false }

theorem c3_failure_contained_witness :
    alookup (executeStrategies c9Cfg [c3Ok, c3Boom]) "Boom" = some Value.null ∧
    alookup (executeStrategies c9Cfg [c3Ok, c3Boom]) "Alpha" =
      some (settledValue c9Cfg c3Ok) :=
  ⟨(c3_failure_contained c9Cfg [c3Ok, c3Boom] (by decide) c3Boom
      (by simp) rfl rfl).1,
   (c3_failure_contained c9Cfg [c3Ok, c3Boom] (by decide) c3Boom
      (by simp) rfl rfl).2 c3Ok (by simp) (by decide)⟩

/-!
## C8 — aggregation is independent of completion order
-/

theorem find_first_unique {α : Type} (l : List (Nat × α)) (i : Nat) (x : α)
    (hmem : (i, x) ∈ l) (huniq : ∀ y ∈ l, y.1 = i → y = (i, x)) :
    l.find? (fun p => p.1 == i) = some (i, x) := by
  induction l with
  | nil => cases hmem
  | cons hd tl ih =>
    rw [List.find?_cons]
    by_cases h : hd.1 = i
    · have : hd = (i, x) := huniq hd (List.mem_cons_self _ _) h
      simp [this]
    · have hne : (hd.1 == i) = false := by simp [h]
      rw [hne]
      rcases List.mem_cons.mp hmem with h1 | h2
      · exact absurd (congrArg Prod.fst h1.symm) h
      · exact ih h2 fun y hy => huniq y (List.mem_cons_of_mem _ hy)

theorem assembleSettled_perm (l : List SettledResult)
    (events : List (Nat × SettledResult)) (hperm : events.Perm l.enum) :
    assembleSettled l.length events = l := by
  apply List.ext_getElem
  · simp [assembleSettled]
  · intro i h1 h2
    have hlt : i < l.length := by simpa [assembleSettled] using h1
    have hfind : events.find? (fun p => p.1 == i) = some (i, l[i]) := by
      apply find_first_unique
      · exact hperm.mem_iff.mpr
          (List.mk_mem_enum_iff_getElem?.mpr (by simp [hlt]))
      · intro y hy hyi
        rcases y with ⟨yi, ys⟩
        have hyi2 : yi = i := hyi
        subst hyi2
        have h3 : l[yi]? = some ys :=
          List.mk_mem_enum_iff_getElem?.mp (hperm.subset hy)
        rw [List.getElem?_eq_getElem hlt] at h3
        injection h3 with h3
        rw [h3]
    simp only [assembleSettled, List.getElem_map, List.getElem_range]
    rw [hfind]

/-- C8: two runs over the same strategies and the same per-probe outcomes,
whose settlement events arrive in any two completion orders, produce the same
`components` object and hence the same serialization and hash — results are
keyed positionally and by name, never by arrival order. -/
theorem c8_completion_order_independent (hashFn : String → String) (cfg : Value)
    (strategies : List Strategy) (e1 e2 : List (Nat × SettledResult))
    (h1 : e1.Perm (settleGraph cfg strategies))
    (h2 : e2.Perm (settleGraph cfg strategies)) :
    aggregateResults (executeStrategiesEv strategies e1) =
      aggregateResults (executeStrategiesEv strategies e2) ∧
    hashFn (stringify (aggregateResults (executeStrategiesEv strategies e1))) =
      hashFn (stringify (aggregateResults (executeStrategiesEv strategies e2))) := by
  have hkey : ∀ e, e.Perm (settleGraph cfg strategies) →
      executeStrategiesEv strategies e = executeStrategies cfg strategies := by
    intro e he
    unfold executeStrategiesEv executeStrategies
    congr 1
    have hlen : strategies.length = (strategies.map (strategySettle cfg)).length := by
      simp
    rw [hlen]
    exact assembleSettled_perm _ e he
  rw [hkey e1 h1, hkey e2 h2]
  exact ⟨rfl, rfl⟩

/-- The settlement events of `[c3Ok, c3Boom]` delivered in reverse completion
order. -/
def c8Reversed : List (Nat × SettledResult) :=
  [(1, strategySettle c9Cfg c3Boom), (0, strategySettle c9Cfg c3Ok)]

theorem c8_completion_order_independent_witness :
    aggregateResults (executeStrategiesEv [c3Ok, c3Boom] c8Reversed) =
      aggregateResults (executeStrategiesEv [c3Ok, c3Boom]
        (settleGraph c9Cfg [c3Ok, c3Boom])) ∧
    simpleHash (stringify (aggregateResults
        (executeStrategiesEv [c3Ok, c3Boom] c8Reversed))) =
      simpleHash (stringify (aggregateResults (executeStrategiesEv [c3Ok, c3Boom]
        (settleGraph c9Cfg [c3Ok, c3Boom])))) :=
  c8_completion_order_independent simpleHash c9Cfg [c3Ok, c3Boom] c8Reversed
    (settleGraph c9Cfg [c3Ok, c3Boom])
    (List.Perm.swap (0, strategySettle c9Cfg c3Ok) (1, strategySettle c9Cfg c3Boom) [])
    (List.Perm.refl _)

/-!
## C6 — cache round trip between two collect() calls
-/

theorem configGetLoop_default_irrel (ks : List String) :
    ∀ v d d' res : Value, configGetLoop v ks d = res → res ≠ d →
      configGetLoop v ks d' = res := by
  induction ks with
  | nil => intro v d d' res h _; exact h
  | cons k tl ih =>
    intro v d d' res h hne
    cases hk : jsGetKeyObjArr v k with
    | some v1 =>
      simp only [configGetLoop, hk] at h ⊢
      exact ih v1 d d' res h hne
    | none =>
      simp only [configGetLoop, hk] at h
      exact absurd h.symm hne

theorem configGet_default_irrel (c : Value) (p : String) (d d' res : Value)
    (h : configGet c p d = res) (hne : res ≠ d) : configGet c p d' = res :=
  configGetLoop_default_irrel (splitDot p) c d d' res h hne

theorem cacheGetDurable_inactive {α : Type} (storage ttlV : Value) (now : Int)
    (key : String) (st : CacheState α)
    (h : (isStr storage "indexedDB" && st.durableReady) = false) :
    cacheGetDurable storage ttlV now key st = (none, st) := by
  unfold cacheGetDurable
  rw [h]
  simp

/-- C6: when caching is on (numeric `ttl` and `maxSize`, memory-only storage),
the first call misses, computes, and stores its composite; a second call
within `ttl` that derives the same stable components hits the cache: it comes
back tagged `cached = true`, carries the cache key, has a hash identical to
the first call's hash, and invokes no probe's collection pipeline. -/
theorem c6_cached_second_call (hashFn : String → String) (cfg : Value)
    (r1 r2 : StrategyRegistry) (t1 t2 ttl maxSize : Int)
    (st : CacheState CachedFingerprint)
    (henabled : configGet cfg "cache.enabled" Value.null = Value.bool true)
    (httl : configGet cfg "cache.ttl" (.num 3600000) = .num ttl)
    (hmax : configGet cfg "cache.maxSize" (.num 100) = .num maxSize)
    (hstorage : isStr (configGet cfg "cache.storage" (.str "memory")) "indexedDB" = false)
    (hsame : getStableComponentsForCache cfg r2 = getStableComponentsForCache cfg r1)
    (hmiss : alookup st.memory
      (generateCacheKey (getStableComponentsForCache cfg r1)) = none)
    (hroom : (st.memory.length : Int) < maxSize)
    (hfresh : t2 - t1 < ttl) :
    (collectorCollect hashFn cfg r2 t2
        (collectorCollect hashFn cfg r1 t1 st).2.1).1.cached = true ∧
    (collectorCollect hashFn cfg r2 t2
        (collectorCollect hashFn cfg r1 t1 st).2.1).1.fingerprintHash =
      (collectorCollect hashFn cfg r1 t1 st).1.fingerprintHash ∧
    (collectorCollect hashFn cfg r2 t2
        (collectorCollect hashFn cfg r1 t1 st).2.1).1.cacheKey =
      some (generateCacheKey (getStableComponentsForCache cfg r1)) ∧
    (collectorCollect hashFn cfg r2 t2
        (collectorCollect hashFn cfg r1 t1 st).2.1).2.2 = [] := by
  have henT : truthy (configGet cfg "cache.enabled" Value.null) = true := by
    rw [henabled]; rfl
  have honT : truthy (configGet cfg "cache.enabled" (Value.bool true)) = true := by
    rw [configGet_default_irrel cfg "cache.enabled" Value.null (Value.bool true)
      (Value.bool true) henabled (fun h => Value.noConfusion h)]
    rfl
  have hkey2 : generateCacheKey (getStableComponentsForCache cfg r2) =
      generateCacheKey (getStableComponentsForCache cfg r1) :=
    congrArg generateCacheKey hsame
  have hget1 : cacheGet cfg t1
      (generateCacheKey (getStableComponentsForCache cfg r1)) st = (none, st) := by
    unfold cacheGet
    rw [henT, if_neg (not_not_intro rfl)]
    dsimp only
    rw [hmiss]
    exact cacheGetDurable_inactive _ _ _ _ _ (by rw [hstorage]; rfl)
  have hset1 : ∀ d : CachedFingerprint,
      cacheSet cfg t1 (generateCacheKey (getStableComponentsForCache cfg r1)) d st =
        ⟨jsAssocSet st.memory (generateCacheKey (getStableComponentsForCache cfg r1))
           ⟨generateCacheKey (getStableComponentsForCache cfg r1), d, t1⟩,
         st.durableReady, st.durable⟩ := by
    intro d
    unfold cacheSet
    rw [henT, if_neg (not_not_intro rfl)]
    dsimp only
    rw [hmax]
    have hlen : (jsAssocSet st.memory
        (generateCacheKey (getStableComponentsForCache cfg r1))
        (⟨generateCacheKey (getStableComponentsForCache cfg r1), d, t1⟩ :
          CacheEntry CachedFingerprint)).length = st.memory.length + 1 :=
      length_jsAssocSet_of_not_mem _ _ _ ((alookup_eq_none_iff _ _).mp hmiss)
    have hsz : jsSizeGt (jsAssocSet st.memory
        (generateCacheKey (getStableComponentsForCache cfg r1))
        (⟨generateCacheKey (getStableComponentsForCache cfg r1), d, t1⟩ :
          CacheEntry CachedFingerprint)).length (Value.num maxSize) = false := by
      simp only [jsSizeGt, hlen]
      simp only [decide_eq_false_iff_not, not_lt]
      push_cast
      omega
    rw [hsz]
    simp only [Bool.false_eq_true, if_false]
    rw [hstorage]
    simp
  have hget2 : ∀ d : CachedFingerprint,
      cacheGet cfg t2 (generateCacheKey (getStableComponentsForCache cfg r1))
        (⟨jsAssocSet st.memory (generateCacheKey (getStableComponentsForCache cfg r1))
            ⟨generateCacheKey (getStableComponentsForCache cfg r1), d, t1⟩,
          st.durableReady, st.durable⟩ : CacheState CachedFingerprint) =
        (some d,
         ⟨jsAssocSet st.memory (generateCacheKey (getStableComponentsForCache cfg r1))
            ⟨generateCacheKey (getStableComponentsForCache cfg r1), d, t1⟩,
          st.durableReady, st.durable⟩) := by
    intro d
    unfold cacheGet
    rw [henT, if_neg (not_not_intro rfl)]
    dsimp only
    rw [alookup_jsAssocSet_self]
    dsimp only
    rw [httl]
    have hlt : jsNumLt (t2 - t1) (Value.num ttl) = true := by
      simp only [jsNumLt]
      exact decide_eq_true hfresh
    rw [hlt]
    rfl
  refine ⟨?_, ?_, ?_, ?_⟩ <;>
    simp only [collectorCollect, honT, if_true, hget1, hkey2, hset1, hget2]

theorem c6_cached_second_call_witness :
    (collectorCollect simpleHash defaultConfig c2Registry 2000
        (collectorCollect simpleHash defaultConfig c2Registry 1000 ⟨[], false, []⟩).2.1).1.cached = true ∧
    (collectorCollect simpleHash defaultConfig c2Registry 2000
        (collectorCollect simpleHash defaultConfig c2Registry 1000 ⟨[], false, []⟩).2.1).1.fingerprintHash =
      (collectorCollect simpleHash defaultConfig c2Registry 1000 ⟨[], false, []⟩).1.fingerprintHash ∧
    (collectorCollect simpleHash defaultConfig c2Registry 2000
        (collectorCollect simpleHash defaultConfig c2Registry 1000 ⟨[], false, []⟩).2.1).1.cacheKey =
      some (generateCacheKey (getStableComponentsForCache defaultConfig c2Registry)) ∧
    (collectorCollect simpleHash defaultConfig c2Registry 2000
        (collectorCollect simpleHash defaultConfig c2Registry 1000 ⟨[], false, []⟩).2.1).2.2 = [] :=
  c6_cached_second_call simpleHash defaultConfig c2Registry c2Registry 1000 2000
    3600000 100 ⟨[], false, []⟩ rfl rfl rfl rfl rfl rfl (by decide) (by decide)

end Fingerprint
